import Mathlib

/-!
Shallow embedding of parts of the `aws-toolkit-vscode` repository, together
with theorems checking the natural-language specification against the code.

Embedded modules:
* `Chat` — `ChatSession` from
  `packages/core/src/codewhispererChat/clients/chat/v0/chat.ts`
  (`fixHistory`, `pushToChatHistory`, the `chatHistory` setter).
* `QCli` — `QCliStreamingHandler` from
  `packages/core/src/amazonqTest/chat/streaming/qCliStreamingHandler.ts`.
* `Zip` — `ZipUtil` from the CodeWhisperer zip utility
  (`reachSizeLimit`, `willReachSizeLimit`, `processTextFile`, `zipFile`,
  `rewriteDiff`).
* `Ec2` — `getRemoveLinesCommand` / `isLinux` from
  `packages/core/src/awsService/ec2/model.ts`.

JavaScript strings are modelled as `String` (or `List Char` where the code
manipulates them character by character), optional (`undefined`-able) values
as `Option`, thrown exceptions as `Option`/error components of the result,
and mutable class fields as explicit state records.
-/

namespace Chat

/-- Model of the SDK `ToolUse` shape (`@amzn/codewhisperer-streaming`):
only the fields the embedded code reads. All SDK members are optional. -/
structure ToolUse where
  toolUseId : Option String
  name : Option String
  deriving DecidableEq

/-- One entry of a tool result's `content` array.  The code builds literals
of the form `{ type: 'text', text: ... }`. -/
structure ToolResultContentBlock where
  type : String
  text : String
  deriving DecidableEq

/-- Model of the SDK `ToolResult` shape. -/
structure ToolResult where
  toolUseId : Option String
  content : List ToolResultContentBlock
  status : String
  deriving DecidableEq

/-- Model of the SDK `UserInputMessageContext` shape.  `editorState` stands
for the remaining SDK fields that the embedded code never reads but that a
spread (`{ ...ctx }`) preserves. -/
structure UserInputMessageContext where
  editorState : Option String
  toolResults : Option (List ToolResult)
  tools : Option (List String)
  deriving DecidableEq

/-- Model of the SDK `UserInputMessage` shape.  `userIntent` stands for the
remaining scalar fields preserved by a spread of the message. -/
structure UserInputMessage where
  content : Option String
  userIntent : Option String
  userInputMessageContext : Option UserInputMessageContext
  deriving DecidableEq

/-- Model of the SDK `AssistantResponseMessage` shape. -/
structure AssistantResponseMessage where
  messageId : Option String
  content : Option String
  toolUses : Option (List ToolUse)
  deriving DecidableEq

/-- Model of the SDK `ChatMessage` shape: at runtime a message carries a
`userInputMessage` member, an `assistantResponseMessage` member, or (for an
unrecognised union member) neither; the code probes both members for
`undefined`, which the two `Option` fields model. -/
structure ChatMessage where
  userInputMessage : Option UserInputMessage
  assistantResponseMessage : Option AssistantResponseMessage
  deriving DecidableEq

/-- `chat.ts` line 92: `const MAX_CONVERSATION_STATE_HISTORY_LEN = 100`. -/
def MAX_CONVERSATION_STATE_HISTORY_LEN : Nat := 100

/-- `chat.ts` lines 39-41, the private setter:
```
private set chatHistory(chatHistory: ChatMessage[]) {
    this.chatHistory = chatHistory
}
```
The assignment in the body re-invokes this same setter (it does not write
the backing field `_chatHistory`), so every call recurses without bound and
the JS runtime throws `RangeError: Maximum call stack size exceeded`.
A call to the setter is therefore modelled as `none` (it throws and never
stores the assigned value). -/
def chatHistorySet (_chatHistory : List ChatMessage) : Option (List ChatMessage) :=
  none

/-- The `findIndex` predicate of `fixHistory` (`chat.ts` lines 98-105):
a message from the user, without tool results, whose content is not the
empty string (a JS `undefined` content also satisfies `content !== ''`). -/
def isValidStartUserMessage (message : ChatMessage) : Bool :=
  match message.userInputMessage with
  | none => false
  | some uim =>
    (match uim.userInputMessageContext with
     | none => true
     | some ctx =>
       match ctx.toolResults with
       | none => true
       | some trs => trs.isEmpty) &&
    uim.content != some ""

/-- `fixHistory` step 1 (`chat.ts` lines 96-127): when the history exceeds
`MAX_CONVERSATION_STATE_HISTORY_LEN`, find the second-oldest valid user
message and assign the trimmed (or cleared) history through the
`chatHistory` setter.  Both assignments go through `chatHistorySet` and
throw, so the overflow fix-up of `nextMessage` in the clearing branch
(lines 117-125) is unreachable. -/
def trimHistoryStep (history : List ChatMessage) : Option (List ChatMessage) :=
  if history.length > MAX_CONVERSATION_STATE_HISTORY_LEN then
    match (history.drop 1).findIdx? (fun message => isValidStartUserMessage message) with
    | some indexToKeep => chatHistorySet (history.drop (indexToKeep + 1))
    | none => chatHistorySet []
  else
    some history

/-- `fixHistory` step 2 (`chat.ts` lines 129-134): if the last message is
from the user, `pop()` it (the pop mutates the backing array through the
getter, so it does work). -/
def dropTrailingUserMessage (history : List ChatMessage) : List ChatMessage :=
  match history.getLast? with
  | some lastMessage =>
    if lastMessage.userInputMessage.isSome then history.dropLast else history
  | none => history

/-- The cancelled tool result built for each tool use (`chat.ts` lines
153-157). -/
def cancelledToolResult (toolUse : ToolUse) : ToolResult :=
  { toolUseId := toolUse.toolUseId,
    content := [{ type := "text", text := "Tool use was cancelled by the user" }],
    status := "error" }

/-- `fixHistory` step 3 (`chat.ts` lines 136-159): if the last (assistant)
message contains tool uses and the next user message has a context without
tool results, give the next message one cancelled tool result per tool use. -/
def ensureToolResultsForNextMessage (history : List ChatMessage)
    (nextMessage : Option UserInputMessage) : Option UserInputMessage :=
  match history.getLast? with
  | none => nextMessage
  | some lastAssistantMessage =>
    match lastAssistantMessage.assistantResponseMessage with
    | none => nextMessage
    | some arm =>
      match arm.toolUses with
      | none => nextMessage
      | some toolUses =>
        if toolUses.length > 0 then
          match nextMessage with
          | none => none
          | some nm =>
            match nm.userInputMessageContext with
            | none => some nm
            | some ctx =>
              match ctx.toolResults with
              | some (_ :: _) => some nm
              | _ =>
                let newContext := { ctx with toolResults := some (toolUses.map cancelledToolResult) }
                some { nm with userInputMessageContext := some newContext }
        else nextMessage

/-- `ChatSession.fixHistory` (`chat.ts` lines 90-160).  The result is the
pair of the updated history and the (possibly mutated) next user message;
`none` models the call throwing (which happens whenever the trimming step
assigns through the self-recursive `chatHistory` setter). -/
def fixHistory (history : List ChatMessage) (nextMessage : Option UserInputMessage) :
    Option (List ChatMessage × Option UserInputMessage) :=
  match trimHistoryStep history with
  | none => none
  | some trimmed =>
    some (dropTrailingUserMessage trimmed,
      ensureToolResultsForNextMessage (dropTrailingUserMessage trimmed) nextMessage)

/-- The context stored by `formatChatHistoryMessage`:
`{ ...message.userInputMessage.userInputMessageContext, tools: undefined }`.
When the original context is `undefined`, the JS spread of `undefined`
still produces a (present) context object whose fields are all `undefined`.
`ChatSession.formatChatHistoryMessage` (`chat.ts` lines 67-80) rebuilds a
user message with that context and drops any other union member. -/
def contextWithoutTools : Option UserInputMessageContext → UserInputMessageContext
  | some ctx => { ctx with tools := none }
  | none => { editorState := none, toolResults := none, tools := none }

def formatChatHistoryMessage (message : ChatMessage) : ChatMessage :=
  match message.userInputMessage with
  | some uim =>
    { userInputMessage := some
        { uim with userInputMessageContext := some (contextWithoutTools uim.userInputMessageContext) },
      assistantResponseMessage := none }
  | none => message

/-- `ChatSession.pushToChatHistory` (`chat.ts` lines 59-65), with the
`_chatHistory` field passed explicitly. -/
def pushToChatHistory (history : List ChatMessage) (message : Option ChatMessage) :
    List ChatMessage :=
  match message with
  | none => history
  | some m => history ++ [formatChatHistoryMessage m]

/-- A runtime `ChatMessage` produced by the streaming SDK carries exactly
one of its two members. -/
def WellFormedMessage (m : ChatMessage) : Prop :=
  (m.userInputMessage.isSome ∧ m.assistantResponseMessage = none) ∨
  (m.userInputMessage = none ∧ m.assistantResponseMessage.isSome)

/-- The history ends with two consecutive messages from the user. -/
def twoTrailingUserMessages (history : List ChatMessage) : Bool :=
  (history.getLast?.any fun m => m.userInputMessage.isSome) &&
  (history.dropLast.getLast?.any fun m => m.userInputMessage.isSome)

instance (m : ChatMessage) : Decidable (WellFormedMessage m) :=
  inferInstanceAs (Decidable
    ((m.userInputMessage.isSome = true ∧ m.assistantResponseMessage = none) ∨
     (m.userInputMessage = none ∧ m.assistantResponseMessage.isSome = true)))

/-- The next user message after `fixHistory` step 3 injected cancelled tool
results: the message's context gains one `cancelledToolResult` per tool use
and every other field is unchanged. -/
def withCancelledToolResults (nm : UserInputMessage) (ctx : UserInputMessageContext)
    (toolUses : List ToolUse) : UserInputMessage :=
  let newContext := { ctx with toolResults := some (toolUses.map cancelledToolResult) }
  { nm with userInputMessageContext := some newContext }

/-- Example data: an assistant reply without tool uses. -/
def exAssistantMessage : ChatMessage :=
  { userInputMessage := none,
    assistantResponseMessage := some { messageId := none, content := some "ok", toolUses := none } }

/-- Example data: a plain user message with no context. -/
def exUserMessage : ChatMessage :=
  { userInputMessage := some { content := some "hi", userIntent := none, userInputMessageContext := none },
    assistantResponseMessage := none }

/-- Example data: a tool use issued by the assistant. -/
def exToolUse : ToolUse := { toolUseId := some "tooluse-1", name := some "fsRead" }

/-- Example data: an assistant reply carrying one tool use. -/
def exAssistantToolResponse : AssistantResponseMessage :=
  { messageId := some "m1", content := some "using a tool", toolUses := some [exToolUse] }

/-- Example data: the chat message wrapping `exAssistantToolResponse`. -/
def exToolUseMessage : ChatMessage :=
  { userInputMessage := none, assistantResponseMessage := some exAssistantToolResponse }

/-- Example data: a context with no tool results. -/
def exNextContext : UserInputMessageContext :=
  { editorState := some "editor", toolResults := none, tools := some ["fsRead"] }

/-- Example data: a next user message whose context has no tool results. -/
def exNextMessage : UserInputMessage :=
  { content := some "next prompt", userIntent := none, userInputMessageContext := some exNextContext }

/-- Example data: a successful tool result. -/
def exToolResult : ToolResult := { toolUseId := some "tr-0", content := [], status := "success" }

/-- Example data: a context carrying one tool result. -/
def exToolResultContext : UserInputMessageContext :=
  { editorState := none, toolResults := some [exToolResult], tools := none }

/-- Example data: a next user message carrying a tool result. -/
def exToolResultNextMessage : UserInputMessage :=
  { content := some "tool results back", userIntent := none,
    userInputMessageContext := some exToolResultContext }

/-- Example data: 101 assistant messages — over the cap, with no valid user
message anywhere to restart the history from. -/
def exOverflowHistory : List ChatMessage := List.replicate 101 exAssistantMessage

/-- Example data: 101 messages in which the trimming scan finds a valid
later user message (at index 2), so the `slice` branch runs. -/
def exTrimmableOverflowHistory : List ChatMessage :=
  exUserMessage :: exAssistantMessage :: exUserMessage :: List.replicate 98 exAssistantMessage

/-- Example data: the all-`undefined` context materialised by the JS spread
of an `undefined` context. -/
def exEmptyContext : UserInputMessageContext :=
  { editorState := none, toolResults := none, tools := none }

/-- Example data: what `pushToChatHistory` stores for `exUserMessage`. -/
def exStoredUserMessage : ChatMessage :=
  { userInputMessage := some { content := some "hi", userIntent := none,
                               userInputMessageContext := some exEmptyContext },
    assistantResponseMessage := none }

/-- Example data: `exNextMessage` after cancelled tool results are injected. -/
def exInjectedNextMessage : UserInputMessage :=
  withCancelledToolResults exNextMessage exNextContext [exToolUse]

end Chat

namespace QCli

/-- One call into the `Messenger` made by `QCliStreamingHandler`
(`qCliStreamingHandler.ts`). -/
inductive MessengerEvent where
  | chatInputEnabled (tabId : String) (enabled : Bool)
  | message (body : String) (tabId : String) (kind : String)
  | errorMessage (body : String) (tabId : String)
  deriving DecidableEq

/-- The mutable fields of `QCliStreamingHandler` (lines 21-27), plus
bookkeeping that identifies `AbortController` objects: `freshId` feeds new
identifiers (UUIDs / controller identities) and `abortedControllers`
records every controller on which `abort()` was invoked. -/
structure HandlerState where
  streamingClient : Bool
  conversationId : Option Nat
  messageId : Option Nat
  isStreaming : Bool
  abortController : Option Nat
  freshId : Nat
  abortedControllers : List Nat
  sentEvents : List MessengerEvent
  deriving DecidableEq

/-- Field initialisers of `QCliStreamingHandler` (lines 22-26). -/
def initialHandlerState : HandlerState :=
  { streamingClient := false, conversationId := none, messageId := none,
    isStreaming := false, abortController := none, freshId := 0,
    abortedControllers := [], sentEvents := [] }

/-- `QCliStreamingHandler.initialize` (lines 33-42): create the streaming
client and a fresh conversation id, or rethrow the creation error leaving
the fields unchanged.  The boolean result records whether the call threw. -/
def initializeClient (s : HandlerState) (createClientThrows : Bool) :
    HandlerState × Bool :=
  if createClientThrows then
    (s, true)
  else
    let s' := { s with
                  streamingClient := true,
                  conversationId := some s.freshId,
                  freshId := s.freshId + 1 }
    (s', false)

/-- `QCliStreamingHandler.processUserPrompt` (lines 50-103).
`createClientThrows` drives the `initialize()` call made when no client
exists yet (line 51-53, before the `try` block: an error there escapes and
the `finally` block never runs); `streamThrows` says whether the `try` body
(`streamResponse` and the messenger calls) throws, which the `catch` block
swallows after sending an error message.  The `finally` block always clears
`isStreaming` and `abortController`.  The boolean result records whether
the returned promise rejected. -/
def processUserPrompt (s : HandlerState) (userPrompt tabId : String)
    (createClientThrows streamThrows : Bool) : HandlerState × Bool :=
  if !s.streamingClient && createClientThrows then
    (s, true)
  else
    let s := if !s.streamingClient then (initializeClient s false).1 else s
    let s := { s with
      isStreaming := true,
      messageId := some s.freshId,
      abortController := some (s.freshId + 1),
      freshId := s.freshId + 2,
      sentEvents := s.sentEvents ++
        [MessengerEvent.chatInputEnabled tabId false,
         MessengerEvent.message userPrompt tabId "prompt",
         MessengerEvent.message "" tabId "answer-stream"] }
    let s :=
      if streamThrows then
        { s with sentEvents := s.sentEvents ++
            [MessengerEvent.errorMessage
               "Failed to process your request. Please try again." tabId,
             MessengerEvent.chatInputEnabled tabId true] }
      else
        { s with sentEvents := s.sentEvents ++
            [MessengerEvent.chatInputEnabled tabId true] }
    ({ s with isStreaming := false, abortController := none }, false)

/-- `QCliStreamingHandler.cancelStreaming` (lines 197-202):
`if (this.isStreaming && this.abortController) this.abortController.abort()`.
The boolean result records whether `abort()` was invoked. -/
def cancelStreaming (s : HandlerState) : HandlerState × Bool :=
  match s.abortController with
  | some controller =>
    if s.isStreaming then
      ({ s with abortedControllers := controller :: s.abortedControllers }, true)
    else
      (s, false)
  | none => (s, false)

/-- States of the handler observable between completed public method calls
(the methods are `async`, but each call here stands for one completed
invocation, matching the code's single-prompt-at-a-time assumption). -/
inductive Reachable : HandlerState → Prop where
  | init : Reachable initialHandlerState
  | initializeStep {s : HandlerState} (e : Bool) :
      Reachable s → Reachable (initializeClient s e).1
  | processStep {s : HandlerState} (p t : String) (i b : Bool) :
      Reachable s → Reachable (processUserPrompt s p t i b).1
  | cancelStep {s : HandlerState} :
      Reachable s → Reachable (cancelStreaming s).1

end QCli

namespace Zip

/-- `CodeAnalysisScope` from `codewhisperer/models/constants` (the constants
module itself is not part of this snapshot; the three members are the ones
the embedded code names). -/
inductive CodeAnalysisScope where
  | FILE_AUTO
  | FILE_ON_DEMAND
  | PROJECT
  deriving DecidableEq

/-- `FeatureUseCase` from `codewhisperer/models/constants`. -/
inductive FeatureUseCase where
  | CODE_SCAN
  | TEST_GENERATION
  deriving DecidableEq

/-- Errors thrown by the embedded `ZipUtil` methods (declared in
`codewhisperer/models/errors`). -/
inductive ZipError where
  | noActiveFile
  | projectSizeExceeded
  | fileSizeExceeded
  deriving DecidableEq

/-- The numeric payload limits `fileScanPayloadSizeLimitBytes` and
`projectScanPayloadSizeLimitBytes` read by
`getFileScanPayloadSizeLimitInBytes` / `getProjectScanPayloadSizeLimitInBytes`.
Their values live in `codewhisperer/models/constants`, which is not part of
this snapshot, so the development is parametric in them. -/
structure ScanLimits where
  fileScanPayloadSizeLimitBytes : Nat
  projectScanPayloadSizeLimitBytes : Nat

/-- The mutable `ZipUtil` fields used by the embedded methods, plus the
entries written to the `ZipStream` (entry path and content). -/
structure ZipUtilState where
  pickedSourceFiles : List String
  totalSize : Nat
  totalLines : Nat
  languageCount : List (String × Nat)
  zipEntries : List (String × List Char)
  deriving DecidableEq

/-- `Set.add`: insert `fsPath` if it is not already present. -/
def addToSet (s : List String) (fsPath : String) : List String :=
  if fsPath ∈ s then s else s ++ [fsPath]

/-- `ZipUtil.reachSizeLimit` (part_001 lines 91-100). -/
def reachSizeLimit (limits : ScanLimits) (size : Nat) (scope : CodeAnalysisScope) : Bool :=
  if scope = CodeAnalysisScope.FILE_AUTO || scope = CodeAnalysisScope.FILE_ON_DEMAND then
    size > limits.fileScanPayloadSizeLimitBytes
  else
    size > limits.projectScanPayloadSizeLimitBytes

/-- `ZipUtil.willReachSizeLimit` (part_001 lines 102-105). -/
def willReachSizeLimit (limits : ScanLimits) (current adding : Nat) : Bool :=
  current + adding > limits.projectScanPayloadSizeLimitBytes

/-- Number of UTF-8 bytes of the content: `Buffer.from(fileContent).length`. -/
def utf8Len (content : List Char) : Nat :=
  (content.map Char.utf8Size).sum

/-- Number of matches of `ZipConstants.newlineRegex = /\r?\n/` in the
content, scanning left to right without overlap. -/
def newlineMatches : List Char → Nat
  | '\r' :: '\n' :: rest => newlineMatches rest + 1
  | '\n' :: rest => newlineMatches rest + 1
  | _ :: rest => newlineMatches rest
  | [] => 0

/-- `fileContent.split(ZipConstants.newlineRegex).length`. -/
def splitNewlinePieces (content : List Char) : Nat :=
  newlineMatches content + 1

/-- `ZipUtil.incrementCountForLanguage` (part_001 lines 512-518).
`getLanguageForFile` stands for the composition of `path.extname` and
`runtimeLanguageContext.getLanguageFromFileExtension`, both outside this
snapshot. -/
def incrementCountForLanguage (getLanguageForFile : String → Option String)
    (fsPath : String) (languageCount : List (String × Nat)) : List (String × Nat) :=
  match getLanguageForFile fsPath with
  | some language =>
    if language ≠ "plaintext" then
      match languageCount.lookup language with
      | some n => languageCount.filter (fun p => p.1 ≠ language) ++ [(language, n + 1)]
      | none => languageCount ++ [(language, 1)]
    else languageCount
  | none => languageCount

/-- `ZipUtil.processTextFile` (part_001 lines 474-495).  The result is the
state when the call finishes and the error it threw, if any; the
`ProjectSizeExceededError` is thrown before any field is mutated. -/
def processTextFile (limits : ScanLimits) (getLanguageForFile : String → Option String)
    (st : ZipUtilState) (fsPath : String) (fileContent : List Char)
    (zipEntryPath : String) : ZipUtilState × Option ZipError :=
  let fileSize := utf8Len fileContent
  if reachSizeLimit limits st.totalSize CodeAnalysisScope.PROJECT ||
      willReachSizeLimit limits st.totalSize fileSize then
    (st, some ZipError.projectSizeExceeded)
  else
    ({ st with
        pickedSourceFiles := addToSet st.pickedSourceFiles fsPath,
        totalSize := st.totalSize + fileSize,
        totalLines := st.totalLines + splitNewlinePieces fileContent,
        languageCount := incrementCountForLanguage getLanguageForFile fsPath st.languageCount,
        zipEntries := st.zipEntries ++ [(zipEntryPath, fileContent)] }, none)

/-- POSIX `path.basename`, modelled from Node's documented behaviour
(trailing separators are ignored, then the last component is returned);
the `path` module is not part of this snapshot. -/
def pathBasename (p : String) : String :=
  let trimmed := (p.data.reverse.dropWhile (fun c => c = '/')).reverse
  String.mk ((trimmed.reverse.takeWhile (fun c => c ≠ '/')).reverse)

/-- `ZipUtil.getZipEntryPath` (part_001 lines 145-147): `path.join`. -/
def getZipEntryPath (projectName relativePath : String) : String :=
  projectName ++ "/" ++ relativePath

/-- `ZipConstants.codeDiffFilePath` (part_001 line 43). -/
def codeDiffFilePath : String := "codeDiff/code.diff"

/-- The inputs `ZipUtil.zipFile` obtains from the editor and file system for
the active file: its path, text content, `fs.stat` size, the containing
workspace folder's path (if any) and the workspace-relative path. -/
structure ZipFileInput where
  fsPath : String
  content : List Char
  statSize : Nat
  workspaceFolderFsPath : Option String
  relativePath : String

/-- `ZipUtil.zipFile` (part_001 lines 107-143).  `normalize` stands for
`shared/utilities/pathUtils.normalize` (not part of this snapshot) and
`zipFilePath` for the concatenation
`getZipDirPath(CODE_SCAN) + codeScanZipExt` whose pieces also live outside
this snapshot.  The first component is the state when the call finishes
together with the thrown error, if any — note the counters are updated
*before* the size check; the second component is the returned path. -/
def zipFile (limits : ScanLimits) (normalize : String → String) (zipFilePath : String)
    (st : ZipUtilState) (uri : Option ZipFileInput) (scope : CodeAnalysisScope) :
    (ZipUtilState × Option ZipError) × Option String :=
  match uri with
  | none => ((st, some ZipError.noActiveFile), none)
  | some f =>
    let newEntries :=
      match f.workspaceFolderFsPath with
      | some wsPath =>
        let projectName := pathBasename wsPath
        let zipEntryPath := getZipEntryPath projectName f.relativePath
        let base := [(zipEntryPath, f.content)]
        if scope = CodeAnalysisScope.FILE_ON_DEMAND then
          base ++ [(codeDiffFilePath, ("+++ b/" ++ normalize zipEntryPath).data)]
        else base
      | none => [(f.fsPath, f.content)]
    let st := { st with
      zipEntries := st.zipEntries ++ newEntries,
      pickedSourceFiles := addToSet st.pickedSourceFiles f.fsPath,
      totalSize := st.totalSize + f.statSize,
      totalLines := st.totalLines + splitNewlinePieces f.content }
    if reachSizeLimit limits st.totalSize scope then
      ((st, some ZipError.fileSizeExceeded), none)
    else
      ((st, none), some zipFilePath)

/-- `line.replace(/\\\\/g, '/')`: scanning left to right, each
non-overlapping occurrence of two consecutive backslash characters becomes
one forward slash. -/
def replaceDoubleBackslash : List Char → List Char
  | [] => []
  | [c] => [c]
  | c1 :: c2 :: rest =>
    if c1 = '\\' ∧ c2 = '\\' then '/' :: replaceDoubleBackslash rest
    else c1 :: replaceDoubleBackslash (c2 :: rest)

/-- `line.replace(/"/g, '')`: remove every double-quote character.  (The two
intervening replaces of `rewriteDiff` substitute each match of
`("a\/[^"]*)` / `("b\/[^"]*)` by its own first capture group, which is the
whole match, so they change nothing.) -/
def removeDoubleQuotes (line : List Char) : List Char :=
  line.filter (fun c => c ≠ '"')

/-- `inputStr.split('\n')` on the character-list model: a newline starts a
new piece, any other character is prepended to the first piece of the rest
(the recursion always yields at least one piece). -/
def splitLines : List Char → List (List Char)
  | [] => [[]]
  | c :: rest =>
    let ls := splitLines rest
    if c = '\n' then [] :: ls
    else (c :: ls.headD []) :: ls.tail

/-- `outputLines.join('\n')`. -/
def joinLines (lines : List (List Char)) : List Char :=
  match lines with
  | [] => []
  | [l] => l
  | l :: ls => l ++ '\n' :: joinLines ls

/-- `ZipUtil.rewriteDiff` (part_001 lines 387-401): split into lines,
rewrite the first five, keep the rest, and re-join. -/
def rewriteDiff (inputStr : List Char) : List Char :=
  let lines := splitLines inputStr
  let rewrittenLines := (lines.take 5).map
    (fun line => removeDoubleQuotes (replaceDoubleBackslash line))
  let outputLines := rewrittenLines ++ lines.drop 5
  joinLines outputLines

/-- Example data: payload limits of 10 bytes (file scan) and 20 bytes
(project scan). -/
def exLimits : ScanLimits :=
  { fileScanPayloadSizeLimitBytes := 10, projectScanPayloadSizeLimitBytes := 20 }

/-- Example data: a `ZipUtil` that has already accumulated 15 bytes. -/
def exState : ZipUtilState :=
  { pickedSourceFiles := [], totalSize := 15, totalLines := 0,
    languageCount := [], zipEntries := [] }

/-- Example data: a 6-byte file content. -/
def exContent : List Char := "abcdef".data

/-- Example data: a 5-byte active file inside the workspace folder `/w`. -/
def exFileInput : ZipFileInput :=
  { fsPath := "/w/a.py", content := "x".data, statSize := 5,
    workspaceFolderFsPath := some "/w", relativePath := "a.py" }

/-- Example data: a six-line git diff whose header lines contain escaped
backslashes and quoted paths. -/
def exDiffInput : List Char :=
  ("diff --git \"a/p\\\\q.txt\" \"b/p\\\\q.txt\"\nnew file mode 100644\nindex 000\n--- /dev/null\n+++ \"b/p\\\\q.txt\"\n+\"body\\\\line\"").data

end Zip

namespace Ec2

/-- `Ec2OS` (`model.ts` line 46): `'Amazon Linux' | 'Ubuntu' | 'macOS'`. -/
inductive Ec2OS where
  | amazonLinux
  | ubuntu
  | macOS
  deriving DecidableEq

/-- `isLinux` (`model.ts` lines 366-368). -/
def isLinux (os : Ec2OS) : Bool :=
  os = Ec2OS.amazonLinux || os = Ec2OS.ubuntu

/-- `getRemoveLinesCommand` (`model.ts` lines 358-364); a thrown
`ToolkitError` is modelled as `Except.error` carrying the message. -/
def getRemoveLinesCommand (pattern : String) (hostOS : Ec2OS) (filepath : String) :
    Except String String :=
  if pattern.data.contains '/' then
    Except.error ("ec2: cannot match pattern containing \x27/\x27, given: " ++ pattern)
  else
    Except.ok ("sed -i" ++ (if isLinux hostOS then "" else " \x27\x27") ++
      " /" ++ pattern ++ "/d " ++ filepath)

end Ec2

/-! ## Theorems -/

open Chat in
/-- The trimming step leaves a history of at most 100 messages untouched. -/
theorem trimHistoryStep_of_le {history : List ChatMessage}
    (h : history.length ≤ MAX_CONVERSATION_STATE_HISTORY_LEN) :
    trimHistoryStep history = some history := by
  unfold trimHistoryStep
  rw [if_neg (by omega)]

open Chat in
/-- On a history of at most 100 messages, `fixHistory` returns: the result
is the history without a trailing user message, next to the possibly
patched next message. -/
theorem fixHistory_of_le {history : List ChatMessage} (next : Option UserInputMessage)
    (h : history.length ≤ MAX_CONVERSATION_STATE_HISTORY_LEN) :
    fixHistory history next =
      some (dropTrailingUserMessage history,
        ensureToolResultsForNextMessage (dropTrailingUserMessage history) next) := by
  unfold fixHistory
  rw [trimHistoryStep_of_le h]

open Chat in
/-- A trailing user message is popped. -/
theorem dropTrailingUserMessage_concat_user {l : List ChatMessage} {m : ChatMessage}
    (hm : m.userInputMessage.isSome = true) :
    dropTrailingUserMessage (l ++ [m]) = l := by
  unfold dropTrailingUserMessage
  rw [List.getLast?_concat]
  simp [hm]

open Chat in
/-- A trailing non-user message is kept. -/
theorem dropTrailingUserMessage_concat_nonuser {l : List ChatMessage} {m : ChatMessage}
    (hm : m.userInputMessage.isSome = false) :
    dropTrailingUserMessage (l ++ [m]) = l ++ [m] := by
  unfold dropTrailingUserMessage
  rw [List.getLast?_concat]
  simp [hm]

/-- Dropping the last element does not change the head of a list that stays
non-empty. -/
theorem head?_dropLast_of_ne_nil {α : Type} (l : List α) (h : l.dropLast ≠ []) :
    l.dropLast.head? = l.head? := by
  match l with
  | [] => simp at h
  | [a] => simp at h
  | a :: b :: t => rfl

open Chat in
/-- `dropTrailingUserMessage` does not change the head of a history that
stays non-empty. -/
theorem head?_dropTrailingUserMessage (history : List ChatMessage)
    (hne : dropTrailingUserMessage history ≠ []) :
    (dropTrailingUserMessage history).head? = history.head? := by
  rcases List.eq_nil_or_concat history with rfl | ⟨l, last, rfl⟩
  · rfl
  · rw [List.concat_eq_append] at hne ⊢
    by_cases hu : last.userInputMessage.isSome = true
    · rw [dropTrailingUserMessage_concat_user hu] at hne ⊢
      cases l with
      | nil => exact absurd rfl hne
      | cons a t => rfl
    · rw [dropTrailingUserMessage_concat_nonuser (by simpa using hu)]

/-- C1 (code_bug evidence): on a 101-message history in which the trimming
scan does find a later valid user message, `fixHistory` does not drop the
oldest messages: the `this.chatHistory = this.chatHistory.slice(...)`
assignment re-enters the self-recursive `chatHistory` setter and the call
throws a stack-overflow `RangeError` (modelled by `none`) instead of
returning a trimmed history. -/
theorem fixHistory_overflow_never_trims :
    Chat.fixHistory Chat.exTrimmableOverflowHistory none = none := rfl

/-- C2 counterexample: a history that ends in two consecutive user messages.
`fixHistory` pops only one of them, so the returned history is non-empty
and still ends in a user message (not an assistant message), contradicting
the claim for inputs with two or more trailing user messages. -/
theorem fixHistory_two_trailing_users_counterexample :
    Chat.fixHistory [Chat.exAssistantMessage, Chat.exUserMessage, Chat.exUserMessage] none =
      some ([Chat.exAssistantMessage, Chat.exUserMessage], none) ∧
    Chat.exUserMessage.userInputMessage.isSome = true ∧
    Chat.exUserMessage.assistantResponseMessage = none :=
  ⟨rfl, rfl, rfl⟩

open Chat in
/-- C2 (amended): for a history of at most 100 well-formed messages that
does not end in two consecutive user messages, `fixHistory` drops exactly
the trailing user message when there is one (`dropTrailingUserMessage`),
and the resulting history, when non-empty, ends in an assistant message. -/
theorem fixHistory_drops_one_trailing_user
    (history : List ChatMessage) (next : Option UserInputMessage)
    (hlen : history.length ≤ MAX_CONVERSATION_STATE_HISTORY_LEN)
    (hwf : ∀ m ∈ history, WellFormedMessage m)
    (h2 : twoTrailingUserMessages history = false) :
    ∃ next', fixHistory history next = some (dropTrailingUserMessage history, next') ∧
      ∀ m, (dropTrailingUserMessage history).getLast? = some m →
        m.assistantResponseMessage.isSome = true := by
  refine ⟨_, fixHistory_of_le next hlen, ?_⟩
  intro m hm
  rcases List.eq_nil_or_concat history with rfl | ⟨l, last, rfl⟩
  · simp [dropTrailingUserMessage] at hm
  · rw [List.concat_eq_append] at hwf h2 hm
    by_cases hu : last.userInputMessage.isSome = true
    · rw [dropTrailingUserMessage_concat_user hu] at hm
      have hmem : m ∈ l ++ [last] := List.mem_append_left _ (List.mem_of_mem_getLast? hm)
      have hnotuser : m.userInputMessage.isSome = false := by
        unfold twoTrailingUserMessages at h2
        rw [List.getLast?_concat, List.dropLast_concat, hm] at h2
        simpa [hu] using h2
      rcases hwf m hmem with ⟨h1, _⟩ | ⟨_, h3⟩
      · rw [h1] at hnotuser; cases hnotuser
      · exact h3
    · rw [dropTrailingUserMessage_concat_nonuser (by simpa using hu)] at hm
      rw [List.getLast?_concat] at hm
      injection hm with hm'
      rcases hwf last (List.mem_append_right _ (List.mem_singleton.mpr rfl)) with ⟨h1, _⟩ | ⟨_, h3⟩
      · exact absurd h1 hu
      · rw [← hm']; exact h3

/-- C2 witness: the amended theorem applied to the concrete two-message
history `[assistant, user]`. -/
theorem fixHistory_drops_one_trailing_user_witness :
    Chat.fixHistory [Chat.exAssistantMessage, Chat.exUserMessage] none =
      some ([Chat.exAssistantMessage], none) ∧
    Chat.exAssistantMessage.assistantResponseMessage.isSome = true := by
  obtain ⟨next', h1, h2⟩ := fixHistory_drops_one_trailing_user
    [Chat.exAssistantMessage, Chat.exUserMessage] none (by decide) (by decide) (by decide)
  exact ⟨rfl, h2 Chat.exAssistantMessage rfl⟩

/-- C3 counterexample: a one-message history whose only message is an
assistant message.  `fixHistory` returns it unchanged, so the returned
non-empty history does not start with a user message. -/
theorem fixHistory_assistant_first_counterexample :
    Chat.fixHistory [Chat.exAssistantMessage] none = some ([Chat.exAssistantMessage], none) ∧
    Chat.exAssistantMessage.userInputMessage = none :=
  ⟨rfl, rfl⟩

open Chat in
/-- C3 (amended): `fixHistory` enforces nothing about the first message for
histories of at most 100 messages: the call returns and the first message
of a non-empty result equals the first message of the input, whatever it
is.  (For longer histories the trimming step throws in the self-recursive
`chatHistory` setter before establishing the invariant.) -/
theorem fixHistory_preserves_head_within_cap
    (history : List ChatMessage) (next : Option UserInputMessage)
    (hlen : history.length ≤ MAX_CONVERSATION_STATE_HISTORY_LEN) :
    ∃ next', fixHistory history next = some (dropTrailingUserMessage history, next') ∧
      (dropTrailingUserMessage history ≠ [] →
        (dropTrailingUserMessage history).head? = history.head?) := by
  exact ⟨_, fixHistory_of_le next hlen, head?_dropTrailingUserMessage history⟩

/-- C3 witness: the amended theorem at the concrete history
`[assistant, user]`, whose head is preserved. -/
theorem fixHistory_preserves_head_within_cap_witness :
    Chat.fixHistory [Chat.exAssistantMessage, Chat.exUserMessage] none =
      some ([Chat.exAssistantMessage], none) ∧
    ([Chat.exAssistantMessage] : List Chat.ChatMessage).head? =
      ([Chat.exAssistantMessage, Chat.exUserMessage] : List Chat.ChatMessage).head? := by
  obtain ⟨next', h1, h2⟩ := fixHistory_preserves_head_within_cap
    [Chat.exAssistantMessage, Chat.exUserMessage] none (by decide)
  exact ⟨rfl, h2 (by decide)⟩

open Chat in
/-- `fixHistory` step 3, characterised: when the last history message is an
assistant message with at least one tool use and the next message has a
context without tool results, the next message gains the cancelled tool
results. -/
theorem ensureToolResults_injects
    (history : List ChatMessage) (nm : UserInputMessage) (ctx : UserInputMessageContext)
    (lastMsg : ChatMessage) (arm : AssistantResponseMessage) (toolUses : List ToolUse)
    (hlast : history.getLast? = some lastMsg)
    (harm : lastMsg.assistantResponseMessage = some arm)
    (htu : arm.toolUses = some toolUses)
    (hne : toolUses ≠ [])
    (hctx : nm.userInputMessageContext = some ctx)
    (htr : ctx.toolResults = none ∨ ctx.toolResults = some []) :
    ensureToolResultsForNextMessage history (some nm) =
      some (withCancelledToolResults nm ctx toolUses) := by
  have hlen0 : toolUses.length > 0 := List.length_pos.mpr hne
  unfold ensureToolResultsForNextMessage withCancelledToolResults
  simp only [hlast, harm, htu, hctx, if_pos hlen0]
  rcases htr with h | h <;> simp [h]

open Chat in
/-- C4: whenever `fixHistory` returns with a history whose last message is
an assistant message carrying at least one tool use, and the next user
message has a context whose tool results are absent or empty, the returned
next message is the input next message with exactly one cancelled tool
result (tool use id, status error, single cancellation text) per tool use. -/
theorem fixHistory_injects_cancelled_toolResults
    (history history' : List ChatMessage) (next' : Option UserInputMessage)
    (nm : UserInputMessage) (ctx : UserInputMessageContext) (lastMsg : ChatMessage)
    (arm : AssistantResponseMessage) (toolUses : List ToolUse)
    (hfix : fixHistory history (some nm) = some (history', next'))
    (hlast : history'.getLast? = some lastMsg)
    (harm : lastMsg.assistantResponseMessage = some arm)
    (htu : arm.toolUses = some toolUses)
    (hne : toolUses ≠ [])
    (hctx : nm.userInputMessageContext = some ctx)
    (htr : ctx.toolResults = none ∨ ctx.toolResults = some []) :
    next' = some (withCancelledToolResults nm ctx toolUses) := by
  unfold fixHistory at hfix
  cases htrim : trimHistoryStep history with
  | none =>
    rw [htrim] at hfix
    exact Option.noConfusion hfix
  | some trimmed =>
    rw [htrim] at hfix
    simp only [Option.some.injEq, Prod.mk.injEq] at hfix
    obtain ⟨h1, h2⟩ := hfix
    subst h1
    rw [← h2]
    exact ensureToolResults_injects _ nm ctx lastMsg arm toolUses hlast harm htu hne hctx htr

/-- C4 witness: a single assistant message with one tool use and a next
message without tool results; the cancelled tool result is injected. -/
theorem fixHistory_injects_cancelled_toolResults_witness :
    Chat.fixHistory [Chat.exToolUseMessage] (some Chat.exNextMessage) =
      some ([Chat.exToolUseMessage], some Chat.exInjectedNextMessage) ∧
    some Chat.exInjectedNextMessage =
      some (Chat.withCancelledToolResults Chat.exNextMessage Chat.exNextContext [Chat.exToolUse]) := by
  refine ⟨rfl, ?_⟩
  exact fixHistory_injects_cancelled_toolResults [Chat.exToolUseMessage] [Chat.exToolUseMessage]
    (some Chat.exInjectedNextMessage) Chat.exNextMessage Chat.exNextContext Chat.exToolUseMessage
    Chat.exAssistantToolResponse [Chat.exToolUse] rfl rfl rfl rfl (by decide) rfl (Or.inl rfl)

/-- C5 (code_bug evidence): on a 101-message history with no valid later
user message, `fixHistory` neither clears the history nor rewrites the next
message: the `this.chatHistory = []` assignment re-enters the
self-recursive `chatHistory` setter and the call throws a stack-overflow
`RangeError` (modelled by `none`) before the overflow fix-up of the next
message (content replacement and tool-result abandonment) can run. -/
theorem fixHistory_overflow_clear_crashes :
    Chat.fixHistory Chat.exOverflowHistory (some Chat.exToolResultNextMessage) = none := rfl

/-- C9 counterexample: pushing a user message whose
`userInputMessageContext` is `undefined` stores a message whose context is
present (an object with every field `undefined`): the
`userInputMessageContext` field itself changes, not only `tools`. -/
theorem pushToChatHistory_materializes_context_counterexample :
    Chat.pushToChatHistory [] (some Chat.exUserMessage) = [Chat.exStoredUserMessage] ∧
    Chat.exUserMessage.userInputMessage.map (fun u => u.userInputMessageContext) = some none ∧
    Chat.exStoredUserMessage.userInputMessage.map (fun u => u.userInputMessageContext) =
      some (some Chat.exEmptyContext) :=
  ⟨rfl, rfl, rfl⟩

open Chat in
/-- C9 (amended): `pushToChatHistory` with `undefined` leaves the history
unchanged; otherwise it appends exactly one message.  An assistant (or any
non-user) message is stored verbatim.  A user message is stored with the
same content and intent, and with a context equal to the original context
minus `tools`; an absent context becomes a present context with every
field `undefined`. -/
theorem pushToChatHistory_append_format
    (history : List ChatMessage) (m : ChatMessage) (uim : UserInputMessage) :
    pushToChatHistory history none = history ∧
    pushToChatHistory history (some m) = history ++ [formatChatHistoryMessage m] ∧
    (m.userInputMessage = none → formatChatHistoryMessage m = m) ∧
    (m.userInputMessage = some uim →
      formatChatHistoryMessage m =
        { userInputMessage :=
            some { uim with
                     userInputMessageContext := some (contextWithoutTools uim.userInputMessageContext) },
          assistantResponseMessage := none }) := by
  refine ⟨rfl, rfl, ?_, ?_⟩
  · intro h
    unfold formatChatHistoryMessage
    rw [h]
  · intro h
    unfold formatChatHistoryMessage
    rw [h]

/-- C9 witness: the amended theorem at the concrete `exUserMessage`. -/
theorem pushToChatHistory_append_format_witness :
    Chat.pushToChatHistory [Chat.exAssistantMessage] none = [Chat.exAssistantMessage] ∧
    Chat.pushToChatHistory [Chat.exAssistantMessage] (some Chat.exUserMessage) =
      [Chat.exAssistantMessage, Chat.formatChatHistoryMessage Chat.exUserMessage] ∧
    Chat.formatChatHistoryMessage Chat.exUserMessage = Chat.exStoredUserMessage := by
  have h := pushToChatHistory_append_format [Chat.exAssistantMessage] Chat.exUserMessage
    { content := some "hi", userIntent := none, userInputMessageContext := none }
  refine ⟨h.1, h.2.1, ?_⟩
  have h4 := h.2.2.2 rfl
  rw [h4]
  rfl

open QCli in
/-- Every handler state reachable through completed method calls is idle:
`isStreaming` is false and no abort controller is live. -/
theorem reachable_idle {s : HandlerState} (h : Reachable s) :
    s.isStreaming = false ∧ s.abortController = none := by
  induction h with
  | init => exact ⟨rfl, rfl⟩
  | @initializeStep s' e hr ih => cases e <;> simpa [initializeClient] using ih
  | @processStep s' p t i b hr ih =>
    unfold processUserPrompt
    by_cases hc : (!s'.streamingClient && i) = true
    · rw [if_pos hc]
      exact ih
    · rw [if_neg hc]
      exact ⟨rfl, rfl⟩
  | @cancelStep s' hr ih =>
    obtain ⟨ih1, ih2⟩ := ih
    unfold cancelStreaming
    rw [ih2]
    exact ⟨ih1, ih2⟩

open QCli in
/-- C6: whenever `processUserPrompt` completes from a reachable state —
normally or after an error — `isStreaming` is false and `abortController`
is `undefined`; and `cancelStreaming` invokes `abort()` exactly when a
streaming response is in progress (`isStreaming` true and a controller
live), and otherwise changes nothing. -/
theorem streaming_cancellation_discipline
    (s : HandlerState) (userPrompt tabId : String) (createClientThrows streamThrows : Bool)
    (hs : Reachable s) :
    ((processUserPrompt s userPrompt tabId createClientThrows streamThrows).1.isStreaming = false ∧
      (processUserPrompt s userPrompt tabId createClientThrows streamThrows).1.abortController = none) ∧
    (∀ u : HandlerState,
      ((cancelStreaming u).2 = true ↔ (u.isStreaming = true ∧ u.abortController.isSome = true)) ∧
      ((cancelStreaming u).2 = false → (cancelStreaming u).1 = u)) := by
  constructor
  · exact reachable_idle (Reachable.processStep userPrompt tabId createClientThrows streamThrows hs)
  · intro u
    unfold cancelStreaming
    cases hac : u.abortController with
    | none => simp
    | some controller =>
      by_cases hstr : u.isStreaming = true
      · simp [hstr]
      · simp [hstr]

/-- C6 witness: the discipline theorem applied to the initial handler
state. -/
theorem streaming_cancellation_discipline_witness :
    ((QCli.processUserPrompt QCli.initialHandlerState "run tests" "tab-1" false false).1.isStreaming = false ∧
      (QCli.processUserPrompt QCli.initialHandlerState "run tests" "tab-1" false false).1.abortController = none) ∧
    (QCli.cancelStreaming QCli.initialHandlerState).1 = QCli.initialHandlerState := by
  have h := streaming_cancellation_discipline QCli.initialHandlerState "run tests" "tab-1"
    false false QCli.Reachable.init
  exact ⟨h.1, (h.2 QCli.initialHandlerState).2 (by decide)⟩

open Zip in
/-- `reachSizeLimit` compares against the project limit for project scope. -/
theorem reachSizeLimit_PROJECT (limits : ScanLimits) (size : Nat) :
    reachSizeLimit limits size CodeAnalysisScope.PROJECT =
      decide (size > limits.projectScanPayloadSizeLimitBytes) := rfl

open Zip in
/-- `reachSizeLimit` compares against the file limit for auto file scans. -/
theorem reachSizeLimit_FILE_AUTO (limits : ScanLimits) (size : Nat) :
    reachSizeLimit limits size CodeAnalysisScope.FILE_AUTO =
      decide (size > limits.fileScanPayloadSizeLimitBytes) := rfl

open Zip in
/-- `reachSizeLimit` compares against the file limit for on-demand file
scans. -/
theorem reachSizeLimit_FILE_ON_DEMAND (limits : ScanLimits) (size : Nat) :
    reachSizeLimit limits size CodeAnalysisScope.FILE_ON_DEMAND =
      decide (size > limits.fileScanPayloadSizeLimitBytes) := rfl

open Zip in
/-- C7: `processTextFile` throws `ProjectSizeExceededError`, leaving its
counters untouched, exactly when the accumulated total already exceeds the
project-scan limit or adding the file's UTF-8 byte size would push it
strictly above that limit; and `zipFile` on the file-scan scopes throws
`FileSizeExceededError` exactly when the accumulated size after adding the
single file is strictly greater than the file-scan limit. -/
theorem zipUtil_size_limit_errors
    (limits : ScanLimits) (getLanguageForFile : String → Option String)
    (st : ZipUtilState) (fsPath zipEntryPath zipFilePath : String)
    (fileContent : List Char) (normalize : String → String)
    (f : ZipFileInput) (scope : CodeAnalysisScope)
    (hscope : scope = CodeAnalysisScope.FILE_AUTO ∨ scope = CodeAnalysisScope.FILE_ON_DEMAND) :
    ((processTextFile limits getLanguageForFile st fsPath fileContent zipEntryPath).2 =
        some ZipError.projectSizeExceeded ↔
      (st.totalSize > limits.projectScanPayloadSizeLimitBytes ∨
        st.totalSize + utf8Len fileContent > limits.projectScanPayloadSizeLimitBytes)) ∧
    ((processTextFile limits getLanguageForFile st fsPath fileContent zipEntryPath).2 ≠ none →
      (processTextFile limits getLanguageForFile st fsPath fileContent zipEntryPath).1 = st) ∧
    ((zipFile limits normalize zipFilePath st (some f) scope).1.2 =
        some ZipError.fileSizeExceeded ↔
      st.totalSize + f.statSize > limits.fileScanPayloadSizeLimitBytes) := by
  refine ⟨?_, ?_, ?_⟩
  · unfold processTextFile
    rw [reachSizeLimit_PROJECT]
    unfold willReachSizeLimit
    by_cases h1 : st.totalSize > limits.projectScanPayloadSizeLimitBytes <;>
      by_cases h2 : st.totalSize + utf8Len fileContent >
          limits.projectScanPayloadSizeLimitBytes <;>
        simp [h1, h2]
  · unfold processTextFile
    rw [reachSizeLimit_PROJECT]
    unfold willReachSizeLimit
    by_cases h1 : st.totalSize > limits.projectScanPayloadSizeLimitBytes <;>
      by_cases h2 : st.totalSize + utf8Len fileContent >
          limits.projectScanPayloadSizeLimitBytes <;>
        simp [h1, h2]
  · rcases hscope with rfl | rfl
    · simp only [zipFile, reachSizeLimit_FILE_AUTO]
      by_cases h : st.totalSize + f.statSize > limits.fileScanPayloadSizeLimitBytes <;>
        simp [h]
    · simp only [zipFile, reachSizeLimit_FILE_ON_DEMAND]
      by_cases h : st.totalSize + f.statSize > limits.fileScanPayloadSizeLimitBytes <;>
        simp [h]

/-- C7 witness: with a 10-byte file limit, a 20-byte project limit and 15
bytes already collected, a 6-byte text file triggers
`ProjectSizeExceededError` leaving the state unchanged, and a 5-byte active
file triggers `FileSizeExceededError` in `zipFile`. -/
theorem zipUtil_size_limit_errors_witness :
    (Zip.processTextFile Zip.exLimits (fun _ => none) Zip.exState "/w/a.py" Zip.exContent
        "w/a.py").2 = some Zip.ZipError.projectSizeExceeded ∧
    (Zip.processTextFile Zip.exLimits (fun _ => none) Zip.exState "/w/a.py" Zip.exContent
        "w/a.py").1 = Zip.exState ∧
    (Zip.zipFile Zip.exLimits id "zip-path" Zip.exState (some Zip.exFileInput)
        Zip.CodeAnalysisScope.FILE_AUTO).1.2 = some Zip.ZipError.fileSizeExceeded := by
  have h := zipUtil_size_limit_errors Zip.exLimits (fun _ => none) Zip.exState "/w/a.py"
    "w/a.py" "zip-path" Zip.exContent id Zip.exFileInput Zip.CodeAnalysisScope.FILE_AUTO
    (Or.inl rfl)
  exact ⟨h.1.mpr (Or.inr (by decide)), h.2.1 (by decide), h.2.2.mpr (by decide)⟩

/-- C8: `getRemoveLinesCommand` throws exactly when the pattern contains a
forward slash; otherwise it returns `sed -i /pattern/d filepath` on Linux
hosts (Amazon Linux or Ubuntu) and `sed -i '' /pattern/d filepath` on
macOS. -/
theorem getRemoveLinesCommand_spec (pattern filepath : String) (hostOS : Ec2.Ec2OS) :
    ((∃ msg, Ec2.getRemoveLinesCommand pattern hostOS filepath = Except.error msg) ↔
      pattern.data.contains '/' = true) ∧
    (pattern.data.contains '/' = false → Ec2.isLinux hostOS = true →
      Ec2.getRemoveLinesCommand pattern hostOS filepath =
        Except.ok ("sed -i /" ++ pattern ++ "/d " ++ filepath)) ∧
    (pattern.data.contains '/' = false → hostOS = Ec2.Ec2OS.macOS →
      Ec2.getRemoveLinesCommand pattern hostOS filepath =
        Except.ok ("sed -i \x27\x27 /" ++ pattern ++ "/d " ++ filepath)) ∧
    (Ec2.isLinux hostOS = true ↔ (hostOS = Ec2.Ec2OS.amazonLinux ∨ hostOS = Ec2.Ec2OS.ubuntu)) := by
  refine ⟨?_, ?_, ?_, ?_⟩
  · unfold Ec2.getRemoveLinesCommand
    by_cases hc : '/' ∈ pattern.data
    · simp [hc]
    · simp [hc]
  · intro hc hl
    unfold Ec2.getRemoveLinesCommand
    rw [if_neg (by simpa using hc), if_pos hl]
    have e1 : "sed -i" ++ "" ++ " /" = "sed -i /" := by decide
    rw [e1]
  · intro hc hm
    subst hm
    unfold Ec2.getRemoveLinesCommand
    rw [if_neg (by simpa using hc), if_neg (by decide)]
    have e2 : "sed -i" ++ " \x27\x27" ++ " /" = "sed -i \x27\x27 /" := by decide
    rw [e2]
  · cases hostOS <;> simp [Ec2.isLinux]

/-- C8 witness: the specification theorem evaluated for an Ubuntu host and
for a macOS host with the pattern `#AWSToolkitForVSCode`. -/
theorem getRemoveLinesCommand_spec_witness :
    Ec2.getRemoveLinesCommand "#AWSToolkitForVSCode" Ec2.Ec2OS.ubuntu "/home/u/.ssh/keys" =
      Except.ok ("sed -i /" ++ "#AWSToolkitForVSCode" ++ "/d " ++ "/home/u/.ssh/keys") ∧
    Ec2.getRemoveLinesCommand "#AWSToolkitForVSCode" Ec2.Ec2OS.macOS "/home/u/.ssh/keys" =
      Except.ok ("sed -i \x27\x27 /" ++ "#AWSToolkitForVSCode" ++ "/d " ++ "/home/u/.ssh/keys") := by
  refine ⟨?_, ?_⟩
  · exact (getRemoveLinesCommand_spec "#AWSToolkitForVSCode" "/home/u/.ssh/keys"
      Ec2.Ec2OS.ubuntu).2.1 (by decide) (by decide)
  · exact (getRemoveLinesCommand_spec "#AWSToolkitForVSCode" "/home/u/.ssh/keys"
      Ec2.Ec2OS.macOS).2.2.1 (by decide) rfl

open Zip in
/-- `splitLines` always yields at least one piece. -/
theorem splitLines_ne_nil (s : List Char) : splitLines s ≠ [] := by
  cases s with
  | nil => simp [splitLines]
  | cons c rest => by_cases hc : c = '\n' <;> simp [splitLines, hc]

open Zip in
/-- No piece produced by `splitLines` contains a newline. -/
theorem newline_not_mem_splitLines (s : List Char) :
    ∀ l ∈ splitLines s, '\n' ∉ l := by
  induction s with
  | nil => simp [splitLines]
  | cons c rest ih =>
    intro l hl
    by_cases hc : c = '\n'
    · subst hc
      simp only [splitLines, if_pos rfl] at hl
      rcases List.mem_cons.mp hl with rfl | hl
      · simp
      · exact ih l hl
    · simp only [splitLines, if_neg hc] at hl
      rcases List.mem_cons.mp hl with rfl | hl
      · intro hmem
        rcases List.mem_cons.mp hmem with heq | hmem
        · exact hc heq.symm
        · cases hsp : splitLines rest with
          | nil => exact absurd hsp (splitLines_ne_nil rest)
          | cons l0 ls =>
            rw [hsp] at hmem
            exact ih l0 (by rw [hsp]; exact List.mem_cons_self _ _) hmem
      · exact ih l (List.mem_of_mem_tail hl)

open Zip in
/-- A line without newlines splits into exactly itself. -/
theorem splitLines_of_no_newline (l : List Char) (h : '\n' ∉ l) :
    splitLines l = [l] := by
  induction l with
  | nil => rfl
  | cons c rest ih =>
    have hc : ¬ c = '\n' := fun hcc => h (by rw [hcc]; exact List.mem_cons_self _ _)
    have hrest : '\n' ∉ rest := fun hm => h (List.mem_cons_of_mem _ hm)
    simp [splitLines, hc, ih hrest]

open Zip in
/-- Splitting `l ++ '\n' :: t` yields `l` followed by the pieces of `t`. -/
theorem splitLines_append_newline (l t : List Char) (h : '\n' ∉ l) :
    splitLines (l ++ '\n' :: t) = l :: splitLines t := by
  induction l with
  | nil => simp [splitLines]
  | cons c rest ih =>
    have hc : ¬ c = '\n' := fun hcc => h (by rw [hcc]; exact List.mem_cons_self _ _)
    have hrest : '\n' ∉ rest := fun hm => h (List.mem_cons_of_mem _ hm)
    simp [splitLines, hc, ih hrest]

open Zip in
/-- Re-splitting a join of newline-free pieces recovers the pieces. -/
theorem splitLines_joinLines (ls : List (List Char)) (hne : ls ≠ [])
    (h : ∀ l ∈ ls, '\n' ∉ l) :
    splitLines (joinLines ls) = ls := by
  induction ls with
  | nil => exact absurd rfl hne
  | cons l rest ih =>
    cases rest with
    | nil =>
      show splitLines (joinLines [l]) = [l]
      rw [show joinLines [l] = l from rfl]
      exact splitLines_of_no_newline l (h l (List.mem_cons_self _ _))
    | cons l2 rest2 =>
      rw [show joinLines (l :: l2 :: rest2) = l ++ '\n' :: joinLines (l2 :: rest2) from rfl]
      rw [splitLines_append_newline _ _ (h l (List.mem_cons_self _ _))]
      rw [ih (by simp) (fun x hx => h x (List.mem_cons_of_mem _ hx))]

open Zip in
/-- `replaceDoubleBackslash` introduces only forward slashes. -/
theorem mem_replaceDoubleBackslash (l : List Char) :
    ∀ c ∈ replaceDoubleBackslash l, c ∈ l ∨ c = '/' := by
  induction l using replaceDoubleBackslash.induct with
  | case1 =>
    intro c hc
    simp [replaceDoubleBackslash] at hc
  | case2 c0 =>
    intro c hc
    simp only [replaceDoubleBackslash] at hc
    exact Or.inl hc
  | case3 c1 c2 rest hcond ih =>
    intro c hc
    rw [replaceDoubleBackslash, if_pos hcond] at hc
    rcases List.mem_cons.mp hc with rfl | hc
    · exact Or.inr rfl
    · rcases ih c hc with h | h
      · exact Or.inl (List.mem_cons_of_mem _ (List.mem_cons_of_mem _ h))
      · exact Or.inr h
  | case4 c1 c2 rest hcond ih =>
    intro c hc
    rw [replaceDoubleBackslash, if_neg hcond] at hc
    rcases List.mem_cons.mp hc with rfl | hc
    · exact Or.inl (List.mem_cons_self _ _)
    · rcases ih c hc with h | h
      · exact Or.inl (List.mem_cons_of_mem _ h)
      · exact Or.inr h

open Zip in
/-- `replaceDoubleBackslash` never introduces a newline. -/
theorem newline_not_mem_replaceDoubleBackslash (l : List Char) (h : '\n' ∉ l) :
    '\n' ∉ replaceDoubleBackslash l := by
  intro hm
  rcases mem_replaceDoubleBackslash l '\n' hm with h' | h'
  · exact h h'
  · exact absurd h' (by decide)

open Zip in
/-- `removeDoubleQuotes` never introduces a newline. -/
theorem newline_not_mem_removeDoubleQuotes (l : List Char) (h : '\n' ∉ l) :
    '\n' ∉ removeDoubleQuotes l :=
  fun hm => h (List.mem_of_mem_filter hm)

open Zip in
/-- The lines of `rewriteDiff`'s output: the first five input lines
rewritten, the remaining input lines verbatim. -/
theorem rewriteDiff_splitLines (inputStr : List Char) :
    splitLines (rewriteDiff inputStr) =
      ((splitLines inputStr).take 5).map
        (fun line => removeDoubleQuotes (replaceDoubleBackslash line)) ++
      (splitLines inputStr).drop 5 := by
  simp only [rewriteDiff]
  apply splitLines_joinLines
  · cases hsp : splitLines inputStr with
    | nil => exact absurd hsp (splitLines_ne_nil inputStr)
    | cons a t => simp
  · intro l hl
    rcases List.mem_append.mp hl with h | h
    · obtain ⟨line, hline, rfl⟩ := List.mem_map.mp h
      exact newline_not_mem_removeDoubleQuotes _
        (newline_not_mem_replaceDoubleBackslash _
          (newline_not_mem_splitLines inputStr line (List.take_subset _ _ hline)))
    · exact newline_not_mem_splitLines inputStr l (List.drop_subset _ _ h)

open Zip in
/-- C10: `rewriteDiff` keeps the number of newline-separated lines; every
line at index 5 or greater is identical to the corresponding input line;
each of the first five lines is the input line with double-backslash pairs
replaced by a slash and double quotes removed. -/
theorem rewriteDiff_line_structure (inputStr : List Char) :
    (splitLines (rewriteDiff inputStr)).length = (splitLines inputStr).length ∧
    (∀ i, 5 ≤ i →
      (splitLines (rewriteDiff inputStr))[i]? = (splitLines inputStr)[i]?) ∧
    (∀ i, i < 5 →
      (splitLines (rewriteDiff inputStr))[i]? =
        ((splitLines inputStr)[i]?).map
          (fun line => removeDoubleQuotes (replaceDoubleBackslash line))) := by
  rw [rewriteDiff_splitLines]
  refine ⟨?_, ?_, ?_⟩
  · simp only [List.length_append, List.length_map, List.length_take, List.length_drop]
    omega
  · intro i hi
    rw [List.getElem?_append]
    rw [List.length_map, List.length_take]
    rw [if_neg (by omega)]
    rw [List.getElem?_drop]
    by_cases hlen : 5 ≤ (splitLines inputStr).length
    · congr 1
      omega
    · rw [List.getElem?_eq_none (by omega), List.getElem?_eq_none (by omega)]
  · intro i hi
    rw [List.getElem?_append]
    rw [List.length_map, List.length_take]
    by_cases hlen : i < (splitLines inputStr).length
    · rw [if_pos (by omega)]
      rw [List.getElem?_map, List.getElem?_take, if_pos hi]
    · rw [if_neg (by omega)]
      rw [List.getElem?_drop]
      rw [List.getElem?_eq_none (by omega), List.getElem?_eq_none (by omega)]
      rfl

/-- C10 witness: the line-structure theorem evaluated on a concrete
six-line diff, at indices 5 (kept verbatim) and 0 (rewritten). -/
theorem rewriteDiff_line_structure_witness :
    (Zip.splitLines (Zip.rewriteDiff Zip.exDiffInput)).length =
      (Zip.splitLines Zip.exDiffInput).length ∧
    (Zip.splitLines (Zip.rewriteDiff Zip.exDiffInput))[5]? =
      (Zip.splitLines Zip.exDiffInput)[5]? ∧
    (Zip.splitLines (Zip.rewriteDiff Zip.exDiffInput))[0]? =
      ((Zip.splitLines Zip.exDiffInput)[0]?).map
        (fun line => Zip.removeDoubleQuotes (Zip.replaceDoubleBackslash line)) := by
  have h := rewriteDiff_line_structure Zip.exDiffInput
  exact ⟨h.1, h.2.1 5 (by decide), h.2.2 0 (by decide)⟩
